import Mathlib

/-!
Verification development for the emulsion playback-and-cache engine.

The repository's `src/main.rs` contains the host event loop, the
`OptionRefClone` trait, and the sleep/throttle decision; the engine modules
(`playback_manager`, `image_cache`) are referenced there but their sources are
not part of this tree, so the engine itself is modelled from the
specification, definition by definition, with each such definition marked
`Modelled from the spec:`.
-/

namespace Emulsion

/-- File paths are modelled abstractly as strings. -/
abbrev Path := String

/-- Decoded pixel buffers are modelled abstractly by an identifier; their
contents play no role in the navigation and caching logic. -/
abbrev Image := Nat

/-- Modelled from the spec: the environment the engine consumes — the decode
primitive (`decode(path) -> Result<PixelBuffer, DecodeError>`, pure) and the
filesystem listing (`list_dir`), already filtered to recognized image
extensions and sorted case-insensitively (the allow-list and collation are
configuration, per the spec's design notes).  `listSiblings p` returns the
ordered sibling entries of `p`'s directory, or `none` when the parent cannot
be listed; `dirOf` maps a path to its parent directory. -/
structure FS where
  decode : Path → Option Image
  listSiblings : Path → Option (List Path)
  dirOf : Path → Path

/-- Modelled from the spec: a Load Request — `Idle` is named `none` after the
source's `LoadRequest::None` (visible in `main.rs`). -/
inductive LoadRequest
  | none
  | loadSpecific (p : Path)
  | loadNext
  | loadPrevious
deriving DecidableEq

/-- Direction of a navigation step. -/
inductive Direction
  | next
  | prev
deriving DecidableEq

/-- Modelled from the spec: a Directory Listing — an ordered sequence of
candidate image file paths plus the index of the currently selected entry. -/
structure Listing where
  entries : List Path
  index : Nat
deriving DecidableEq

/-- The empty listing the engine falls back to on scan failure. -/
def Listing.empty : Listing := ⟨[], 0⟩

/-- Modelled from the spec: `step(listing, direction) -> index` computes
`(index + delta) mod len` for `delta ∈ {+1, -1}`; on an empty listing the
index stays put and the step is a no-op.  The backward step is realized on
naturals as `(index + len - 1) mod len`, which agrees with the integer
formula. -/
def Listing.step (l : Listing) (d : Direction) : Nat :=
  if l.entries.length = 0 then l.index
  else
    match d with
    | .next => (l.index + 1) % l.entries.length
    | .prev => (l.index + l.entries.length - 1) % l.entries.length

/-- Stepping a listing forward: the index moves to `step .next`. -/
def Listing.applyNext (l : Listing) : Listing :=
  { l with index := l.step .next }

/-- Locate a path in an entry list: index of its first occurrence. -/
def locate (p : Path) : List Path → Option Nat
  | [] => Option.none
  | e :: es => if e = p then some 0 else (locate p es).map (· + 1)

/-- Modelled from the spec: `scan(path) -> Listing` reads the parent
directory (already filtered and sorted by the environment) and locates
`path`'s position.  Fails with `DirectoryUnreadable` when the parent cannot
be listed and with `EntryNotFound` when `path` is absent from the filtered
listing. -/
inductive ScanError
  | directoryUnreadable
  | entryNotFound
deriving DecidableEq

/-- Modelled from the spec: directory scan. -/
def scan (fs : FS) (p : Path) : Except ScanError Listing :=
  match fs.listSiblings p with
  | Option.none => .error .directoryUnreadable
  | some es =>
    match locate p es with
    | Option.none => .error .entryNotFound
    | some i => .ok ⟨es, i⟩

/-- Modelled from the spec: the Image Cache maps absolute paths to decoded
images; it is keyed, so an entry never exists in two slots at once. -/
abbrev Cache := List (Path × Image)

/-- Cache lookup by key. -/
def Cache.find (p : Path) : Cache → Option Image
  | [] => Option.none
  | e :: c => if e.1 = p then some e.2 else Cache.find p c

/-- Keyed insertion: any previous entry under the same key is replaced. -/
def Cache.insert (c : Cache) (p : Path) (img : Image) : Cache :=
  (p, img) :: c.filter (fun e => decide (e.1 ≠ p))

/-- The cache's key set contains no duplicates. -/
def Cache.KeysNodup (c : Cache) : Prop := (c.map Prod.fst).Nodup

instance (c : Cache) : Decidable c.KeysNodup := by
  unfold Cache.KeysNodup; infer_instance

/-- Modelled from the spec: `get_or_decode(path)` returns the cached entry if
present; otherwise it invokes the decode primitive, inserts the result under
`path` on success, and returns it.  A decode failure is NOT cached.  The
third component records whether a decode was attempted this call. -/
def get_or_decode (fs : FS) (c : Cache) (p : Path) : Cache × Option Image × Bool :=
  match Cache.find p c with
  | some img => (c, some img, false)
  | Option.none =>
    match fs.decode p with
    | some img => (c.insert p img, some img, true)
    | Option.none => (c, Option.none, true)

/-- Modelled from the spec: the neighbor window — the set
argument paths at the previous, current and next index of the listing. -/
def Listing.neighborWindow (l : Listing) : List Path :=
  [l.entries.get? (l.step .prev), l.entries.get? l.index,
    l.entries.get? (l.step .next)].filterMap id

/-- Modelled from the spec: `retain_window(center_path, listing)` evicts
every cached entry whose path is not one of {previous sibling, current, next
sibling} relative to the listing's current index; duplicate window keys are
a single retained entry. -/
def retain_window (l : Listing) (c : Cache) : Cache :=
  c.filter (fun e => decide (e.1 ∈ l.neighborWindow))

/-- Modelled from the spec: the cache's neighbor window is fully populated
(nothing left to prefetch). -/
def window_populated (l : Listing) (c : Cache) : Bool :=
  l.neighborWindow.all (fun p => (Cache.find p c).isSome)

/-- Modelled from the spec: the Playback State — the active listing, the
cache, the pending Load Request, the shown-image handle (the path it was
decoded from together with the image), the scanned directory, and the last
recorded decode failure. -/
structure PlaybackState where
  listing : Listing
  cache : Cache
  loadRequest : LoadRequest
  shown : Option (Path × Image)
  scannedDir : Option Path
  lastError : Option Path
deriving DecidableEq

/-- Modelled from the spec: the initial "no file loaded" state. -/
def initialState : PlaybackState :=
  { listing := Listing.empty, cache := [], loadRequest := .none,
    shown := Option.none, scannedDir := Option.none, lastError := Option.none }

/-- Modelled from the spec: `set(request)` overwrites the pending request
unconditionally (named `request_load` after the call sites in `main.rs`). -/
def request_load (s : PlaybackState) (r : LoadRequest) : PlaybackState :=
  { s with loadRequest := r }

/-- Modelled from the spec: `take()` returns the current request and resets
it to `Idle` (`LoadRequest.none`). -/
def take (s : PlaybackState) : LoadRequest × PlaybackState :=
  (s.loadRequest, { s with loadRequest := .none })

/-- Per-tick outputs besides the state: whether a decode was attempted and
the idle hint. -/
structure TickOut where
  decodeAttempted : Bool
  idleHint : Bool
deriving DecidableEq

/-- Modelled from the spec: the listing used by a `LoadSpecific(p)` tick —
rescan when `p`'s directory differs from the currently scanned one,
otherwise relocate `p` inside the existing listing; on either failure fall
back to the empty listing.  The second component is the scanned directory
recorded afterwards. -/
def relocate (fs : FS) (s : PlaybackState) (p : Path) : Listing × Option Path :=
  if s.scannedDir = some (fs.dirOf p) then
    match locate p s.listing.entries with
    | some i => (⟨s.listing.entries, i⟩, s.scannedDir)
    | Option.none => (Listing.empty, Option.none)
  else
    match scan fs p with
    | .ok l => (l, some (fs.dirOf p))
    | .error _ => (Listing.empty, Option.none)

/-- Modelled from the spec: shared body of the `LoadNext`/`LoadPrevious`
branches — compute the new index via `step` against the existing listing (no
rescan), attempt `get_or_decode` on the path at the new index, prune with
`retain_window`, and update the shown-image handle (cleared on decode
failure, failure recorded).  On an empty listing there is no path at the new
index, so nothing is decoded. -/
def navBody (fs : FS) (s : PlaybackState) (d : Direction) : PlaybackState × TickOut :=
  match s.listing.entries.get? (s.listing.step d) with
  | some p =>
    ({ s with
         listing := ⟨s.listing.entries, s.listing.step d⟩,
         cache := retain_window ⟨s.listing.entries, s.listing.step d⟩
           (get_or_decode fs s.cache p).1,
         shown := (get_or_decode fs s.cache p).2.1.map (fun img => (p, img)),
         lastError := if (get_or_decode fs s.cache p).2.1.isSome then Option.none
           else some p },
     { decodeAttempted := (get_or_decode fs s.cache p).2.2, idleHint := false })
  | Option.none =>
    ({ s with
         listing := ⟨s.listing.entries, s.listing.step d⟩,
         cache := retain_window ⟨s.listing.entries, s.listing.step d⟩ s.cache },
     { decodeAttempted := false, idleHint := false })

/-- Modelled from the spec: the Playback Manager's per-frame transition
(`tick`, realized by `update_image` in the source).  Steps, in order: take
the pending request; on `Idle` do nothing; on `LoadSpecific(p)` rescan or
relocate and attempt `get_or_decode p`; on `LoadNext`/`LoadPrevious` step
the index and attempt `get_or_decode` on the path at the new index; after a
load branch prune the cache with `retain_window`; update the shown-image
handle (cleared on decode failure, failure recorded); compute the idle
hint (true only on an `Idle` tick with nothing left to prefetch). -/
def tick (fs : FS) (s : PlaybackState) : PlaybackState × TickOut :=
  let s1 := (take s).2
  match (take s).1 with
  | .none =>
    (s1, { decodeAttempted := false, idleHint := window_populated s1.listing s1.cache })
  | .loadSpecific p =>
    let rl := relocate fs s1 p
    let gd := get_or_decode fs s1.cache p
    ({ listing := rl.1, cache := retain_window rl.1 gd.1, loadRequest := .none,
       shown := gd.2.1.map (fun img => (p, img)), scannedDir := rl.2,
       lastError := if gd.2.1.isSome then Option.none else some p },
     { decodeAttempted := gd.2.2, idleHint := false })
  | .loadNext => navBody fs s1 .next
  | .loadPrevious => navBody fs s1 .prev

/-- Modelled from the spec: the directory update the host loop performs
after a load request (`update_directory` in the source) — a rescan centered
on the shown image's path; both `DirectoryUnreadable` and `EntryNotFound`
fall back to the empty listing rather than propagating, so the call always
returns `ok`. -/
def update_directory (fs : FS) (s : PlaybackState) : Except ScanError PlaybackState :=
  match s.shown with
  | some (p, _) =>
    match scan fs p with
    | .ok l => .ok { s with listing := l, scannedDir := some (fs.dirOf p) }
    | .error _ => .ok { s with listing := Listing.empty, scannedDir := Option.none }
  | Option.none => .ok s

/-- The host loop's `.unwrap()` on `update_directory` (main.rs line 258):
`some` when the call returned `ok`, `none` when the unwrap would panic. -/
def hostDirectoryUpdate (fs : FS) (s : PlaybackState) : Option PlaybackState :=
  match update_directory fs s with
  | .ok s' => some s'
  | .error _ => Option.none

/-- The flag the host loop computes (main.rs line 251):
`*playback_manager.load_request() != LoadRequest::None`. -/
def load_requested_flag (r : LoadRequest) : Bool := decide (r ≠ LoadRequest.none)

/-- The host loop's sleep decision (main.rs lines 261-265):
the manager's idle hint AND the picture panel's AND no load requested. -/
def host_should_sleep (pmSleep panelSleep loadRequested : Bool) : Bool :=
  pmSleep && panelSleep && !loadRequested

/-- A navigation tick: inject `LoadNext`/`LoadPrevious` and tick once. -/
def navStep (fs : FS) (s : PlaybackState) (d : Direction) : PlaybackState :=
  (tick fs (request_load s (match d with | .next => .loadNext | .prev => .loadPrevious))).1

/-- States reachable from the initial state through request injections and
ticks against a fixed filesystem. -/
inductive Reachable (fs : FS) : PlaybackState → Prop
  | init : Reachable fs initialState
  | req (r : LoadRequest) {s : PlaybackState} :
      Reachable fs s → Reachable fs (request_load s r)
  | tick {s : PlaybackState} :
      Reachable fs s → Reachable fs (tick fs s).1

/-- The correspondence invariant carried through reachability: every cache
entry decodes to its stored image, and the shown handle, when present,
decodes from its path, which — when the listing is non-empty — is the entry
at the listing's current index. -/
def Inv (fs : FS) (s : PlaybackState) : Prop :=
  (∀ e ∈ s.cache, fs.decode e.1 = some e.2) ∧
  (∀ (p : Path) (img : Image), s.shown = some (p, img) →
    fs.decode p = some img ∧
    (s.listing.entries ≠ [] →
      s.listing.entries.get? s.listing.index = some p))

/-- A reference-counting heap: the count of live handles per allocation. -/
structure RcHeap where
  count : Nat → Nat

/-- `Rc::clone`: bump the reference count of the allocation and hand out a
handle to the same allocation — no pixel data is copied. -/
def rcClone (h : RcHeap) (ptr : Nat) : RcHeap × Nat :=
  ({ count := fun q => if q = ptr then h.count q + 1 else h.count q }, ptr)

/-- `OptionRefClone::ref_clone` (main.rs lines 82-89): `Some(ref image) =>
Some(image.clone())`, `None => None`. -/
def ref_clone (h : RcHeap) : Option Nat → RcHeap × Option Nat
  | some image => ((rcClone h image).1, some (rcClone h image).2)
  | Option.none => (h, Option.none)

/-- Concrete environment used by witnesses: a readable three-image
directory in which `bad.png` fails to decode. -/
def fsA : FS :=
  { decode := fun p => if p = "bad.png" then Option.none else some p.length,
    listSiblings := fun _ => some ["a.png", "b.png", "c.png"],
    dirOf := fun _ => "dir" }

/-- Concrete environment whose directory cannot be listed although every
file decodes. -/
def fsB : FS :=
  { decode := fun _ => some 0,
    listSiblings := fun _ => Option.none,
    dirOf := fun p => p }

/-- A concrete three-entry listing positioned on its middle entry. -/
def listingABC : Listing := ⟨["a.png", "b.png", "c.png"], 1⟩

/-- State reached by loading `b.png` from the initial state under `fsA`. -/
def stateB : PlaybackState :=
  (tick fsA (request_load initialState (.loadSpecific "b.png"))).1

/-- State reached by loading `a.png` from the initial state under `fsB`:
the scan fails (directory unreadable) while the decode succeeds. -/
def stateMismatch : PlaybackState :=
  (tick fsB (request_load initialState (.loadSpecific "a.png"))).1

/-!  Helper lemmas. -/

theorem locate_get? {p : Path} {es : List Path} :
    ∀ {i : Nat}, locate p es = some i → es.get? i = some p := by
  induction es with
  | nil => intro i h; simp [locate] at h
  | cons e es ih =>
    intro i h
    by_cases he : e = p
    · rw [locate, if_pos he] at h
      cases h
      simpa using he
    · rw [locate, if_neg he] at h
      rcases hj : locate p es with _ | j
      · rw [hj] at h; cases h
      · rw [hj] at h
        cases h
        simpa using ih hj

theorem step_lt (l : Listing) (d : Direction) (h : l.entries ≠ []) :
    l.step d < l.entries.length := by
  have hlen : 0 < l.entries.length := List.length_pos.mpr h
  have hne : l.entries.length ≠ 0 := by omega
  cases d <;> simp only [Listing.step, if_neg hne] <;> exact Nat.mod_lt _ hlen

theorem applyNext_iterate (l : Listing) (h : l.entries ≠ [])
    (hi : l.index < l.entries.length) (k : Nat) :
    (Listing.applyNext^[k] l).entries = l.entries ∧
    (Listing.applyNext^[k] l).index = (l.index + k) % l.entries.length := by
  have hlen : 0 < l.entries.length := List.length_pos.mpr h
  induction k with
  | zero => simpa using (Nat.mod_eq_of_lt hi).symm
  | succ k ih =>
    obtain ⟨he, hidx⟩ := ih
    rw [Function.iterate_succ_apply']
    refine ⟨by simp [Listing.applyNext, he], ?_⟩
    have hne : (Listing.applyNext^[k] l).entries.length ≠ 0 := by
      rw [he]; omega
    simp only [Listing.applyNext, Listing.step, if_neg hne]
    simp only [he, hidx]
    have hmod : ((l.index + k) % l.entries.length + 1) % l.entries.length
        = (l.index + k + 1) % l.entries.length :=
      (Nat.mod_modEq (l.index + k) l.entries.length).add_right 1
    rw [Nat.add_assoc] at hmod
    exact hmod

/-- C1: for every non-empty directory listing of length `n` and every
starting index `i < n`, applying the `LoadNext` step `n` times in succession
returns the current index to `i` — forward navigation is cyclically
closed. -/
theorem loadNext_cyclic (l : Listing) (h : l.entries ≠ [])
    (hi : l.index < l.entries.length) :
    (Listing.applyNext^[l.entries.length] l).index = l.index := by
  rw [(applyNext_iterate l h hi l.entries.length).2, Nat.add_mod_right,
    Nat.mod_eq_of_lt hi]

/-- Witness for C1 on the concrete three-entry listing. -/
theorem loadNext_cyclic_witness :
    (Listing.applyNext^[listingABC.entries.length] listingABC).index
      = listingABC.index :=
  loadNext_cyclic listingABC (by decide) (by decide)

/-- C2: the Directory Index step operation returns `(index + delta) mod len`
for `delta ∈ {+1, -1}` on every non-empty listing (stated over the integers
with the sign-of-divisor remainder), so stepping forward from the last entry
yields index `0` and stepping backward from index `0` yields `len - 1`; on
an empty listing the index stays `0` and the step is a no-op. -/
theorem step_mod_spec :
    (∀ l : Listing, l.entries ≠ [] →
      ((l.step .next : Int) = ((l.index : Int) + 1) % (l.entries.length : Int) ∧
       (l.step .prev : Int) = ((l.index : Int) - 1) % (l.entries.length : Int))) ∧
    (∀ l : Listing, l.entries ≠ [] → l.index = l.entries.length - 1 →
      l.step .next = 0) ∧
    (∀ l : Listing, l.entries ≠ [] → l.index = 0 →
      l.step .prev = l.entries.length - 1) ∧
    (∀ (l : Listing) (d : Direction), l.entries = [] →
      l.step d = l.index ∧ (l.index = 0 → l.step d = 0)) := by
  refine ⟨fun l h => ?_, fun l h hi => ?_, fun l h hi => ?_, fun l d h => ?_⟩
  · have hlen : 0 < l.entries.length := List.length_pos.mpr h
    have hne : l.entries.length ≠ 0 := by omega
    constructor
    · simp only [Listing.step, if_neg hne]
      rw [Int.natCast_mod]
      push_cast
      rfl
    · simp only [Listing.step, if_neg hne]
      rw [Int.natCast_mod]
      have h1 : (1 : Nat) ≤ l.index + l.entries.length := by omega
      rw [Nat.cast_sub h1]
      push_cast
      have heq : ((l.index : Int) + l.entries.length - 1)
          = ((l.index : Int) - 1) + (l.entries.length : Int) * 1 := by ring
      rw [heq, Int.add_mul_emod_self_left]
  · have hlen : 0 < l.entries.length := List.length_pos.mpr h
    have hne : l.entries.length ≠ 0 := by omega
    simp only [Listing.step, if_neg hne]
    have : l.index + 1 = l.entries.length := by omega
    rw [this, Nat.mod_self]
  · have hlen : 0 < l.entries.length := List.length_pos.mpr h
    have hne : l.entries.length ≠ 0 := by omega
    simp only [Listing.step, if_neg hne, hi, Nat.zero_add]
    exact Nat.mod_eq_of_lt (by omega)
  · have hz : l.entries.length = 0 := by rw [h]; rfl
    refine ⟨?_, fun h0 => ?_⟩
    · simp [Listing.step, hz]
    · simp [Listing.step, hz, h0]

/-- Witness for C2 at concrete inputs: the integer formula on the
three-entry listing, wraparound in both directions, and the empty-listing
no-op. -/
theorem step_mod_spec_witness :
    ((listingABC.step .next : Int)
        = ((listingABC.index : Int) + 1) % (listingABC.entries.length : Int)) ∧
    (Listing.mk ["a.png", "b.png", "c.png"] 2).step .next = 0 ∧
    (Listing.mk ["a.png", "b.png", "c.png"] 0).step .prev
      = (Listing.mk ["a.png", "b.png", "c.png"] 0).entries.length - 1 ∧
    Listing.empty.step .next = Listing.empty.index :=
  ⟨(step_mod_spec.1 listingABC (by decide)).1,
   step_mod_spec.2.1 (Listing.mk ["a.png", "b.png", "c.png"] 2) (by decide) (by decide),
   step_mod_spec.2.2.1 (Listing.mk ["a.png", "b.png", "c.png"] 0) (by decide) (by decide),
   (step_mod_spec.2.2.2 Listing.empty .next (by decide)).1⟩

/-- C5: `take()` returns the current request and resets the pending slot to
`Idle` (so a second `take` observes `Idle`: each request is consumed exactly
once per tick), and `set` (`request_load`) overwrites the pending request
unconditionally, so after any sequence of `set` calls only the last request
is observed and intermediate requests are dropped. -/
theorem take_set_spec :
    (∀ s : PlaybackState, (take s).1 = s.loadRequest) ∧
    (∀ s : PlaybackState, (take s).2.loadRequest = LoadRequest.none) ∧
    (∀ s : PlaybackState, (take (take s).2).1 = LoadRequest.none) ∧
    (∀ (s : PlaybackState) (r : LoadRequest),
      (request_load s r).loadRequest = r) ∧
    (∀ (s : PlaybackState) (rs : List LoadRequest) (r : LoadRequest),
      (List.foldl request_load s (rs ++ [r])).loadRequest = r) := by
  refine ⟨fun s => rfl, fun s => rfl, fun s => rfl, fun s r => rfl,
    fun s rs r => ?_⟩
  rw [List.foldl_append]
  rfl

/-- C7: a failed decode of path `p` is never inserted into the cache and
never evicts or modifies any other entry — `get_or_decode` returns the cache
unchanged — and a later `get_or_decode p` re-invokes the decode primitive
(the attempt flag is set), so the retry succeeds once the file becomes
readable. -/
theorem decode_failure_isolation :
    (∀ (fs : FS) (c : Cache) (p : Path), Cache.find p c = Option.none →
      fs.decode p = Option.none →
      get_or_decode fs c p = (c, Option.none, true)) ∧
    (∀ (fs' : FS) (c : Cache) (p : Path) (img : Image),
      Cache.find p c = Option.none → fs'.decode p = some img →
      get_or_decode fs' c p = (c.insert p img, some img, true)) := by
  constructor
  · intro fs c p hf hd
    rw [get_or_decode, hf, hd]
  · intro fs' c p img hf hd
    rw [get_or_decode, hf, hd]

/-- Witness for C7: under `fsA`, decoding `bad.png` fails and leaves the
cache holding `a.png` untouched; after the file becomes readable (`fsB`),
the same call decodes it. -/
theorem decode_failure_isolation_witness :
    get_or_decode fsA [("a.png", 5)] "bad.png"
      = ([("a.png", 5)], Option.none, true) ∧
    get_or_decode fsB [("a.png", 5)] "bad.png"
      = (Cache.insert [("a.png", 5)] "bad.png" 0, some 0, true) :=
  ⟨decode_failure_isolation.1 fsA [("a.png", 5)] "bad.png" (by decide) (by decide),
   decode_failure_isolation.2 fsB [("a.png", 5)] "bad.png" 0 (by decide) (by decide)⟩

/-- Idle ticks are fixed points of the transition. -/
theorem tick_idle_fix (fs : FS) (s : PlaybackState)
    (h : s.loadRequest = LoadRequest.none) : (tick fs s).1 = s := by
  obtain ⟨li, c, r, sh, sd, le⟩ := s
  cases h
  rfl

/-- C8: processing an `Idle` request leaves the entire engine state — the
shown-image handle, the directory listing (entries and index), and the cache
contents — unchanged, for any number of consecutive `Idle` ticks from any
state. -/
theorem idle_tick_noop (fs : FS) (s : PlaybackState)
    (h : s.loadRequest = LoadRequest.none) (k : Nat) :
    (fun t => (tick fs t).1)^[k] s = s := by
  induction k with
  | zero => rfl
  | succ k ih => rw [Function.iterate_succ_apply', ih, tick_idle_fix fs s h]

/-- Witness for C8: two idle ticks on a concrete loaded state. -/
theorem idle_tick_noop_witness :
    (fun t => (tick fsA t).1)^[2] stateB = stateB :=
  idle_tick_noop fsA stateB (by decide) 2

/-- C10: `ref_clone` on the optional shown-image handle returns `none`
exactly when the input is `none`, and otherwise a new reference-counted
handle to the same underlying texture allocation — the allocation's count is
incremented, every other allocation's count is untouched, and no pixel data
is copied (the returned handle names the same allocation) — leaving the
original handle unchanged. -/
theorem ref_clone_spec :
    (∀ (h : RcHeap) (o : Option Nat),
      (ref_clone h o).2 = Option.none ↔ o = Option.none) ∧
    (∀ (h : RcHeap) (o : Option Nat) (ptr : Nat), o = some ptr →
      (ref_clone h o).2 = some ptr ∧
      (ref_clone h o).1.count ptr = h.count ptr + 1 ∧
      ∀ q : Nat, q ≠ ptr → (ref_clone h o).1.count q = h.count q) ∧
    (∀ (h : RcHeap) (o : Option Nat), o = Option.none → ref_clone h o = (h, o)) := by
  refine ⟨fun h o => ?_, fun h o ptr ho => ?_, fun h o ho => ?_⟩
  · cases o <;> simp [ref_clone]
  · subst ho
    refine ⟨rfl, ?_, fun q hq => ?_⟩
    · simp [ref_clone, rcClone]
    · simp [ref_clone, rcClone, hq]
  · subst ho
    rfl

/-- Witness for C10 at a concrete heap and handle. -/
theorem ref_clone_spec_witness :
    ((ref_clone ⟨fun _ => 1⟩ (some 7)).2 = some 7 ∧
      (ref_clone ⟨fun _ => 1⟩ (some 7)).1.count 7 = 2 ∧
      ∀ q : Nat, q ≠ 7 → (ref_clone ⟨fun _ => 1⟩ (some 7)).1.count q = 1) ∧
    ref_clone ⟨fun _ => 1⟩ (Option.none : Option Nat) = (⟨fun _ => 1⟩, Option.none) :=
  ⟨ref_clone_spec.2.1 ⟨fun _ => 1⟩ (some 7) 7 rfl,
   ref_clone_spec.2.2 ⟨fun _ => 1⟩ Option.none rfl⟩

theorem keysNodup_filter (c : Cache) (f : Path × Image → Bool)
    (h : c.KeysNodup) : Cache.KeysNodup (List.filter f c) :=
  List.Nodup.sublist (List.Sublist.map Prod.fst (List.filter_sublist c)) h

theorem keysNodup_insert (c : Cache) (p : Path) (img : Image)
    (h : c.KeysNodup) : (c.insert p img).KeysNodup := by
  rw [Cache.insert, Cache.KeysNodup, List.map_cons, List.nodup_cons]
  refine ⟨?_, keysNodup_filter c _ h⟩
  intro hmem
  obtain ⟨e, he, hep⟩ := List.mem_map.mp hmem
  have := (List.mem_filter.mp he).2
  simp only [decide_eq_true_eq] at this
  exact this hep

theorem keysNodup_god (fs : FS) (c : Cache) (p : Path)
    (h : c.KeysNodup) : ((get_or_decode fs c p).1).KeysNodup := by
  rw [get_or_decode]
  rcases Cache.find p c with _ | img
  · rcases fs.decode p with _ | img
    · exact h
    · exact keysNodup_insert c p img h
  · exact h

theorem neighborWindow_length_le (l : Listing) : l.neighborWindow.length ≤ 3 :=
  le_trans (List.length_filterMap_le _ _) (by simp)

theorem retain_window_bound (l : Listing) (c : Cache) (h : c.KeysNodup) :
    (retain_window l c).length ≤ 3 ∧
    (∀ e ∈ retain_window l c, e.1 ∈ l.neighborWindow) ∧
    (retain_window l c).KeysNodup := by
  have hmem : ∀ e ∈ retain_window l c, e.1 ∈ l.neighborWindow := by
    intro e he
    have := (List.mem_filter.mp he).2
    simpa using this
  have hnd : (retain_window l c).KeysNodup := keysNodup_filter c _ h
  refine ⟨?_, hmem, hnd⟩
  calc (retain_window l c).length
      = ((retain_window l c).map Prod.fst).length := (List.length_map _ _).symm
    _ = ((retain_window l c).map Prod.fst).toFinset.card :=
        (List.toFinset_card_of_nodup hnd).symm
    _ ≤ l.neighborWindow.toFinset.card := by
        refine Finset.card_le_card ?_
        intro x hx
        rw [List.mem_toFinset] at hx ⊢
        obtain ⟨e, he, rfl⟩ := List.mem_map.mp hx
        exact hmem e he
    _ ≤ l.neighborWindow.length := List.toFinset_card_le _
    _ ≤ 3 := neighborWindow_length_le l

theorem navBody_idleHint (fs : FS) (s : PlaybackState) (d : Direction) :
    (navBody fs s d).2.idleHint = false := by
  unfold navBody
  split <;> rfl

theorem navBody_shape (fs : FS) (s : PlaybackState) (d : Direction) :
    (navBody fs s d).1.listing = ⟨s.listing.entries, s.listing.step d⟩ ∧
    ∃ c0 : Cache,
      (navBody fs s d).1.cache
        = retain_window ⟨s.listing.entries, s.listing.step d⟩ c0 ∧
      (s.cache.KeysNodup → c0.KeysNodup) := by
  unfold navBody
  split
  · exact ⟨rfl, (get_or_decode fs s.cache _).1, rfl,
      fun h => keysNodup_god fs s.cache _ h⟩
  · exact ⟨rfl, s.cache, rfl, fun h => h⟩

theorem navStep_eq (fs : FS) (s : PlaybackState) (d : Direction) :
    navStep fs s d = (navBody fs (request_load s .none) d).1 := by
  cases d <;> rfl

theorem navStep_cache_spec (fs : FS) (s : PlaybackState) (d : Direction)
    (h : s.cache.KeysNodup) :
    (navStep fs s d).cache.length ≤ 3 ∧
    (∀ e ∈ (navStep fs s d).cache,
      e.1 ∈ (navStep fs s d).listing.neighborWindow) ∧
    (navStep fs s d).cache.KeysNodup := by
  rw [navStep_eq]
  obtain ⟨hl, c0, hc, hnd⟩ := navBody_shape fs (request_load s .none) d
  rw [hl, hc]
  exact retain_window_bound _ c0 (hnd h)

theorem navStep_entries (fs : FS) (s : PlaybackState) (d : Direction) :
    (navStep fs s d).listing.entries = s.listing.entries := by
  rw [navStep_eq, (navBody_shape fs (request_load s .none) d).1]
  rfl

/-- C3: after any sequence of navigation ticks over a directory listing with
at least 3 entries, the image cache holds at most 3 entries, every retained
key lies in the neighbor window {previous, current, next} of the new index,
and keys are retained once (the key list stays duplicate-free), because
`retain_window` evicts everything outside that window. -/
theorem cache_bound_nav (fs : FS) (s : PlaybackState) (ds : List Direction)
    (hnd : s.cache.KeysNodup) (h3 : 3 ≤ s.listing.entries.length)
    (hne : ds ≠ []) :
    (ds.foldl (navStep fs) s).cache.length ≤ 3 ∧
    (∀ e ∈ (ds.foldl (navStep fs) s).cache,
      e.1 ∈ (ds.foldl (navStep fs) s).listing.neighborWindow) ∧
    (ds.foldl (navStep fs) s).cache.KeysNodup := by
  induction ds generalizing s with
  | nil => exact absurd rfl hne
  | cons d ds ih =>
    cases ds with
    | nil => simpa using navStep_cache_spec fs s d hnd
    | cons d2 ds2 =>
      have h1 := navStep_cache_spec fs s d hnd
      have h3' : 3 ≤ (navStep fs s d).listing.entries.length := by
        rw [navStep_entries]; exact h3
      exact ih (navStep fs s d) h1.2.2 h3' (List.cons_ne_nil d2 ds2)

/-- Witness for C3: one forward navigation tick from the concrete loaded
state keeps the cache within the 3-entry bound. -/
theorem cache_bound_nav_witness :
    ([Direction.next].foldl (navStep fsA) stateB).cache.length ≤ 3 :=
  (cache_bound_nav fsA stateB [Direction.next] (by decide) (by decide)
    (by decide)).1

/-- C6: the idle hint after a tick is true exactly when the request consumed
by that tick was `Idle`, no decode was attempted during that tick, and the
cache's neighbor window is fully populated; and the host loop's sleep
decision (main.rs lines 261-265) is false whenever a non-`Idle` load request
was pending, so the host never sleeps on such an iteration. -/
theorem idle_hint_spec :
    (∀ (fs : FS) (s : PlaybackState),
      (tick fs s).2.idleHint
        = (decide (s.loadRequest = LoadRequest.none)
            && !(tick fs s).2.decodeAttempted
            && window_populated s.listing s.cache)) ∧
    (∀ (pm panel : Bool) (r : LoadRequest),
      host_should_sleep pm panel (load_requested_flag r) = true →
      r = LoadRequest.none) := by
  constructor
  · intro fs s
    cases hr : s.loadRequest with
    | none => simp [tick, take, hr]
    | loadSpecific p => simp [tick, take, hr]
    | loadNext => simp [tick, take, hr, navBody_idleHint]
    | loadPrevious => simp [tick, take, hr, navBody_idleHint]
  · intro pm panel r h
    by_contra hne
    simp [host_should_sleep, load_requested_flag, hne] at h

/-- Witness for C6: the idle-hint equation at the concrete loaded state and
the host sleep decision applied to the concrete `Idle` request. -/
theorem idle_hint_spec_witness :
    ((tick fsA stateB).2.idleHint
      = (decide (stateB.loadRequest = LoadRequest.none)
          && !(tick fsA stateB).2.decodeAttempted
          && window_populated stateB.listing stateB.cache)) ∧
    LoadRequest.none = LoadRequest.none :=
  ⟨idle_hint_spec.1 fsA stateB,
   idle_hint_spec.2 true true LoadRequest.none (by decide)⟩

/-- C4: no failure inside the engine is fatal — `DirectoryUnreadable` and
`EntryNotFound` resolve to the empty listing, a `DecodeError` resolves to an
absent shown image, and the directory update the host loop unwraps
(main.rs line 258) always returns ok, so no engine call made by the host
loop can panic or unwind across the engine boundary. -/
theorem engine_failures_nonfatal :
    (∀ (fs : FS) (s : PlaybackState), (hostDirectoryUpdate fs s).isSome = true) ∧
    (∀ (fs : FS) (s : PlaybackState) (p : Path),
      Cache.find p s.cache = Option.none → fs.decode p = Option.none →
      ((tick fs (request_load s (.loadSpecific p))).1).shown = Option.none) ∧
    (∀ (fs : FS) (s : PlaybackState) (p : Path),
      s.scannedDir = Option.none → fs.listSiblings p = Option.none →
      ((tick fs (request_load s (.loadSpecific p))).1).listing = Listing.empty) := by
  refine ⟨fun fs s => ?_, fun fs s p hf hd => ?_, fun fs s p hsd hls => ?_⟩
  · rw [hostDirectoryUpdate, update_directory]
    rcases hs : s.shown with _ | ⟨q, img⟩
    · rfl
    · rcases hq : scan fs q with e | l <;> simp [hq]
  · simp [tick, take, request_load, get_or_decode, hf, hd]
  · have hscan : scan fs p = .error .directoryUnreadable := by
      rw [scan, hls]
    simp [tick, take, request_load, relocate, hscan, hsd]

/-- Witness for C4: the directory update at the mismatch state, a failing
decode of `bad.png`, and an unreadable directory all degrade without a
panic. -/
theorem engine_failures_nonfatal_witness :
    (hostDirectoryUpdate fsB stateMismatch).isSome = true ∧
    ((tick fsA (request_load initialState (.loadSpecific "bad.png"))).1).shown
      = Option.none ∧
    ((tick fsB (request_load initialState (.loadSpecific "x.png"))).1).listing
      = Listing.empty :=
  ⟨engine_failures_nonfatal.1 fsB stateMismatch,
   engine_failures_nonfatal.2.1 fsA initialState "bad.png" (by decide) (by decide),
   engine_failures_nonfatal.2.2 fsB initialState "x.png" (by decide) (by decide)⟩

theorem find_mem {p : Path} {c : Cache} {img : Image}
    (h : Cache.find p c = some img) : (p, img) ∈ c := by
  induction c with
  | nil => cases h
  | cons e c ih =>
    rw [Cache.find] at h
    split at h
    · rename_i he
      cases h
      obtain ⟨e1, e2⟩ := e
      cases he
      exact List.mem_cons_self _ _
    · exact List.mem_cons_of_mem _ (ih h)

theorem god_cache_good (fs : FS) (c : Cache) (p : Path)
    (hc : ∀ e ∈ c, fs.decode e.1 = some e.2) :
    ∀ e ∈ (get_or_decode fs c p).1, fs.decode e.1 = some e.2 := by
  intro e he
  rcases hf : Cache.find p c with _ | img
  · rcases hd : fs.decode p with _ | img
    · simp only [get_or_decode, hf, hd] at he
      exact hc e he
    · simp only [get_or_decode, hf, hd] at he
      rw [Cache.insert] at he
      rcases List.mem_cons.mp he with rfl | hmem
      · exact hd
      · exact hc e (List.mem_filter.mp hmem).1
  · simp only [get_or_decode, hf] at he
    exact hc e he

theorem god_result_good (fs : FS) (c : Cache) (p : Path)
    (hc : ∀ e ∈ c, fs.decode e.1 = some e.2) (img : Image)
    (h : (get_or_decode fs c p).2.1 = some img) : fs.decode p = some img := by
  rcases hf : Cache.find p c with _ | img0
  · rcases hd : fs.decode p with _ | img1
    · simp only [get_or_decode, hf, hd] at h
      cases h
    · simp only [get_or_decode, hf, hd] at h
      exact h
  · simp only [get_or_decode, hf] at h
    cases h
    exact hc (p, img) (find_mem hf)

theorem retain_window_subset (l : Listing) (c : Cache) :
    ∀ e ∈ retain_window l c, e ∈ c := by
  intro e he
  exact (List.mem_filter.mp he).1

theorem scan_ok (fs : FS) (p : Path) (l : Listing) (h : scan fs p = .ok l) :
    l.entries.get? l.index = some p := by
  rw [scan] at h
  rcases hls : fs.listSiblings p with _ | es
  · simp only [hls] at h
    cases h
  · simp only [hls] at h
    rcases hl : locate p es with _ | i
    · simp only [hl] at h
      cases h
    · simp only [hl] at h
      cases h
      exact locate_get? hl

theorem relocate_locates (fs : FS) (s : PlaybackState) (p : Path) :
    (relocate fs s p).1.entries ≠ [] →
    (relocate fs s p).1.entries.get? (relocate fs s p).1.index = some p := by
  rw [relocate]
  split
  · rcases hl : locate p s.listing.entries with _ | i
    · simp only [hl]
      intro hne
      exact absurd rfl hne
    · simp only [hl]
      intro _
      exact locate_get? hl
  · rcases hs : scan fs p with e | l
    · simp only [hs]
      intro hne
      exact absurd rfl hne
    · simp only [hs]
      intro _
      exact scan_ok fs p l hs

theorem inv_navBody (fs : FS) (s : PlaybackState) (d : Direction)
    (h : Inv fs s) : Inv fs (navBody fs s d).1 := by
  rcases hg : s.listing.entries.get? (s.listing.step d) with _ | p
  · simp only [navBody, hg]
    refine ⟨fun e he => h.1 e (retain_window_subset _ _ e he), ?_⟩
    intro q img hq
    refine ⟨(h.2 q img hq).1, fun hne => ?_⟩
    exfalso
    have hlt := step_lt s.listing d hne
    rw [List.get?_eq_none] at hg
    omega
  · simp only [navBody, hg]
    refine ⟨fun e he =>
      god_cache_good fs s.cache p h.1 e (retain_window_subset _ _ e he), ?_⟩
    intro q img hq
    rcases ho : (get_or_decode fs s.cache p).2.1 with _ | img0
    · simp only [ho, Option.map_none'] at hq
      cases hq
    · simp only [ho, Option.map_some'] at hq
      cases hq
      exact ⟨god_result_good fs s.cache p h.1 img ho, fun _ => hg⟩

theorem inv_tick (fs : FS) (s : PlaybackState) (h : Inv fs s) :
    Inv fs (tick fs s).1 := by
  cases hr : s.loadRequest with
  | none =>
    rw [tick_idle_fix fs s hr]
    exact h
  | loadSpecific p =>
    have hteq : (tick fs s).1
        = ({ listing := (relocate fs (take s).2 p).1,
             cache := retain_window (relocate fs (take s).2 p).1
               (get_or_decode fs (take s).2.cache p).1,
             loadRequest := .none,
             shown := (get_or_decode fs (take s).2.cache p).2.1.map
               (fun img => (p, img)),
             scannedDir := (relocate fs (take s).2 p).2,
             lastError := if (get_or_decode fs (take s).2.cache p).2.1.isSome
               then Option.none else some p } : PlaybackState) := by
      simp only [tick, take, hr]
    rw [hteq]
    refine ⟨fun e he =>
      god_cache_good fs s.cache p h.1 e (retain_window_subset _ _ e he), ?_⟩
    intro q img hq
    simp only at hq
    rcases ho : (get_or_decode fs s.cache p).2.1 with _ | img0
    · rw [show (take s).2.cache = s.cache from rfl, ho] at hq
      cases hq
    · rw [show (take s).2.cache = s.cache from rfl, ho] at hq
      simp only [Option.map_some'] at hq
      cases hq
      exact ⟨god_result_good fs s.cache p h.1 img ho,
        relocate_locates fs (take s).2 p⟩
  | loadNext =>
    have hteq : (tick fs s).1 = (navBody fs (take s).2 .next).1 := by
      simp only [tick, take, hr]
    rw [hteq]
    exact inv_navBody fs (take s).2 .next h
  | loadPrevious =>
    have hteq : (tick fs s).1 = (navBody fs (take s).2 .prev).1 := by
      simp only [tick, take, hr]
    rw [hteq]
    exact inv_navBody fs (take s).2 .prev h

theorem inv_reachable (fs : FS) (s : PlaybackState) (h : Reachable fs s) :
    Inv fs s := by
  induction h with
  | init =>
    refine ⟨fun e he => absurd he (List.not_mem_nil e), fun p img hq => ?_⟩
    cases hq
  | req r _ ih => exact ih
  | tick _ ih => exact inv_tick fs _ ih

/-- C9 counterexample: load a path whose directory scan fails while its
decode succeeds — the reachable result shows an image although the listing
has no entry at the current index, refuting the claim as stated. -/
theorem shown_matches_index_cex :
    Reachable fsB stateMismatch ∧
    stateMismatch.shown = some ("a.png", 0) ∧
    stateMismatch.listing.entries.get? stateMismatch.listing.index
      = Option.none :=
  ⟨Reachable.tick (Reachable.req (LoadRequest.loadSpecific "a.png")
      Reachable.init),
   by decide, by decide⟩

/-- C9 amended: in every reachable state whose listing is non-empty,
whenever the shown-image handle is present it is the decoded image of
exactly the path at the directory listing's current index. -/
theorem shown_matches_index (fs : FS) (s : PlaybackState) (h : Reachable fs s)
    (hne : s.listing.entries ≠ []) (p : Path) (img : Image)
    (hs : s.shown = some (p, img)) :
    s.listing.entries.get? s.listing.index = some p ∧ fs.decode p = some img := by
  obtain ⟨hd, hl⟩ := (inv_reachable fs s h).2 p img hs
  exact ⟨hl hne, hd⟩

/-- Witness for the amended C9 at the concrete loaded state. -/
theorem shown_matches_index_witness :
    stateB.listing.entries.get? stateB.listing.index = some "b.png" ∧
    fsA.decode "b.png" = some 5 :=
  shown_matches_index fsA stateB
    (Reachable.tick (Reachable.req (LoadRequest.loadSpecific "b.png")
      Reachable.init))
    (by decide) "b.png" 5 (by decide)

end Emulsion
